import Mathlib

/-!
Verification of the x509search library core: the search engine consumer
loop with SHA-256 de-duplication, the tiled static-CT-API log client
(tile paths, checkpoint parsing, time-to-tile binary search, retry policy
selection, tile entry parsing) and the tiled-log data source error
handling. The Go code is shallowly embedded: machine integers become
Int/Nat, byte strings become List Nat, Go strings become List Char (one
entry per byte), HTTP fetches become oracle function parameters, and the
concurrent pipeline is sequentialized where a claim concerns its
sequential core.
-/

/-! ## Decimal formatting and parsing (strconv.FormatInt / strconv.ParseInt) -/

/-- Character for a decimal digit value, as produced by Go integer formatting. -/
def digitChar (d : Nat) : Char := Char.ofNat (48 + d)

/-- Fuel-driven decimal rendering of a natural number, most significant digit
first. With fuel greater than the input it is total and agrees with Go
integer formatting. -/
def toDecimalAux : Nat → Nat → List Char
  | 0, _ => []
  | fuel + 1, n =>
    if n < 10 then [digitChar n]
    else toDecimalAux fuel (n / 10) ++ [digitChar (n % 10)]

/-- Decimal rendering of a natural number: Go strconv.FormatInt(n, 10) for
a non-negative n. -/
def toDecimal (n : Nat) : List Char := toDecimalAux (n + 1) n

/-- Go strconv.FormatInt(v, 10) on int64 values. -/
def formatInt (v : Int) : List Char :=
  if v < 0 then '-' :: toDecimal (-v).toNat else toDecimal v.toNat

/-- Decimal digit value of a character, if it is one. -/
def digitVal (c : Char) : Option Nat :=
  if 48 ≤ c.toNat ∧ c.toNat ≤ 57 then some (c.toNat - 48) else none

/-- Accumulating base-10 parse of a digit string; fails on any non-digit. -/
def parseAux : Nat → List Char → Option Nat
  | acc, [] => some acc
  | acc, c :: rest =>
    match digitVal c with
    | none => none
    | some d => parseAux (acc * 10 + d) rest

/-- Parse a non-empty all-digit string to a natural number. -/
def parseNatDigits : List Char → Option Nat
  | [] => none
  | l => parseAux 0 l

/-- Largest int64 value, the overflow cutoff of strconv.ParseInt(s, 10, 64). -/
def maxInt64 : Nat := 9223372036854775807

/-- Go strconv.ParseInt(s, 10, 64): optional sign, decimal digits, int64
range check. The result is none exactly when Go returns a non-nil error. -/
def parseInt64 (s : List Char) : Option Int :=
  match s with
  | [] => none
  | c :: rest =>
    if c = '+' then
      (parseNatDigits rest).bind fun n =>
        if n ≤ maxInt64 then some ((n : Nat) : Int) else none
    else if c = '-' then
      (parseNatDigits rest).bind fun n =>
        if n ≤ maxInt64 + 1 then some (-(n : Int)) else none
    else
      (parseNatDigits (c :: rest)).bind fun n =>
        if n ≤ maxInt64 then some ((n : Nat) : Int) else none

namespace Staticctapi

/-! ## Tile paths (staticctapi/log.go, TilePathFromIndex) -/

/-- Go fmt.Sprintf with format %03d for a non-negative value: at least three
digits, zero padded. TilePathFromIndex only applies it to values below 1000. -/
def format3 (n : Nat) : List Char :=
  if n < 1000 then [digitChar (n / 100), digitChar (n / 10 % 10), digitChar (n % 10)]
  else toDecimal n

/-- The prepending loop of TilePathFromIndex: while the remainder is nonzero,
prepend an xDDD/ segment for its three lowest decimal digits. -/
def tilePathLoop (r : Nat) (path : List Char) : List Char :=
  if h : r = 0 then path
  else tilePathLoop (r / 1000) ('x' :: (format3 (r % 1000) ++ '/' :: path))
termination_by r
decreasing_by exact Nat.div_lt_self (Nat.pos_of_ne_zero h) (by omega)

/-- staticctapi.TilePathFromIndex, for the non-negative indices the claims
quantify over (the Go argument is an int64; quotient and remainder agree with
Nat arithmetic on non-negative values). -/
def TilePathFromIndex (tileIndex : Nat) : List Char :=
  tilePathLoop (tileIndex / 1000) (format3 (tileIndex % 1000))

/-- Decoder for tile paths, following the spec description of the path shape:
leading xDDD/ segments accumulate base-1000 digit groups, a final bare
three-digit segment closes the index. -/
def parseTilePathGo (acc : Nat) : List Char → Option Nat
  | [d1, d2, d3] =>
    match digitVal d1, digitVal d2, digitVal d3 with
    | some a, some b, some c => some (acc * 1000 + (a * 100 + b * 10 + c))
    | _, _, _ => none
  | c :: d1 :: d2 :: d3 :: s :: rest =>
    if c = 'x' ∧ s = '/' then
      match digitVal d1, digitVal d2, digitVal d3 with
      | some a, some b, some c2 => parseTilePathGo (acc * 1000 + (a * 100 + b * 10 + c2)) rest
      | _, _, _ => none
    else none
  | _ => none

/-- Parse a tile path back to a tile index. -/
def parseTilePath (s : List Char) : Option Nat := parseTilePathGo 0 s

/-! ## Checkpoint parsing (staticctapi/log.go, TreeSizeFromCheckpoint) -/

/-- Go strings.Count(text, newline). -/
def countNewlines (s : List Char) : Nat := s.countP (fun c => c == '\n')

/-- Split at the first newline, when there is one. -/
def splitFirst : List Char → Option (List Char × List Char)
  | [] => none
  | c :: rest =>
    if c = '\n' then some ([], rest)
    else (splitFirst rest).map (fun p => (c :: p.1, p.2))

/-- Go strings.SplitN(s, newline, k + 1): perform at most k splits. -/
def splitNl : Nat → List Char → List (List Char)
  | 0, s => [s]
  | k + 1, s =>
    match splitFirst s with
    | none => [s]
    | some (a, b) => a :: splitNl k b

/-- The tree-size check of TreeSizeFromCheckpoint on the second checkpoint
line: ParseInt must succeed, the value must be non-negative, and the line
must round-trip through FormatInt. -/
def goLine2Check (s : List Char) : Option Int :=
  match parseInt64 s with
  | none => none
  | some v => if v < 0 then none else if s = formatInt v then some v else none

/-- Value of a standard base64 alphabet character. -/
def b64Val (c : Char) : Option Nat :=
  if 65 ≤ c.toNat ∧ c.toNat ≤ 90 then some (c.toNat - 65)
  else if 97 ≤ c.toNat ∧ c.toNat ≤ 122 then some (c.toNat - 97 + 26)
  else if 48 ≤ c.toNat ∧ c.toNat ≤ 57 then some (c.toNat - 48 + 52)
  else if c = '+' then some 62
  else if c = '/' then some 63
  else none

/-- Decode standard base64 four-character quanta with trailing padding, as
Go encoding/base64 StdEncoding does. -/
def b64Quanta : List Char → Option (List Nat)
  | [] => some []
  | a :: b :: c :: d :: rest =>
    match b64Val a, b64Val b with
    | some va, some vb =>
      if c = '=' ∧ d = '=' then
        if rest = [] then some [va * 4 + vb / 16] else none
      else if d = '=' then
        match b64Val c with
        | some vc =>
          if rest = [] then some [va * 4 + vb / 16, vb % 16 * 16 + vc / 4] else none
        | none => none
      else
        match b64Val c, b64Val d with
        | some vc, some vd =>
          (b64Quanta rest).map
            (fun tl => (va * 4 + vb / 16) :: (vb % 16 * 16 + vc / 4) :: (vc % 4 * 64 + vd) :: tl)
        | _, _ => none
    | _, _ => none
  | _ => none

/-- Go base64.StdEncoding.DecodeString: carriage returns and newlines are
ignored, the rest must be well-formed padded quanta. -/
def base64Decode (s : List Char) : Option (List Nat) :=
  b64Quanta (s.filter (fun c => !(c == '\r' || c == '\n')))

/-- Whether a string base64-decodes to exactly 32 bytes. -/
def base64Ok32 (s : List Char) : Bool :=
  match base64Decode s with
  | some hash => hash.length == 32
  | none => false

/-- staticctapi.TreeSizeFromCheckpoint (log.go lines 35-53). The Go source
compares len(text) against the constant 1e6, and indexes the result of
strings.SplitN(text, newline, 4). -/
def TreeSizeFromCheckpoint (text : List Char) : Except String Int :=
  if countNewlines text < 3 ∨ text.length > 1000000 then
    .error "malformed checkpoint: incorrect size"
  else
    match goLine2Check ((splitNl 3 text).getD 1 []) with
    | none => .error "malformed checkpoint: invalid tree size"
    | some treeSize =>
      match base64Decode ((splitNl 3 text).getD 2 []) with
      | none => .error "malformed checkpoint: invalid root hash"
      | some hash =>
        if hash.length ≠ 32 then .error "malformed checkpoint: invalid root hash"
        else .ok treeSize

/-- Canonical non-negative decimal in the syntactic sense used by the claim:
non-empty, digits only, no leading zero except for the number zero itself. -/
def canonicalDecimal (s : List Char) : Bool :=
  !s.isEmpty && s.all Char.isDigit && (s.headD '0' != '0' || s == ['0'])

/-- The checkpoint rejection set as the claim states it, with a 1 MiB size
bound and no upper bound on the canonical tree size. -/
def claimRejectsCheckpoint (text : List Char) : Prop :=
  countNewlines text < 3 ∨ text.length > 1048576 ∨
    canonicalDecimal ((splitNl 3 text).getD 1 []) = false ∨
    base64Ok32 ((splitNl 3 text).getD 2 []) = false

/-- The checkpoint rejection set the code implements: the size bound is
10^6 bytes and the tree size must be the canonical decimal of a value that
fits in an int64. -/
def amendedRejectsCheckpoint (text : List Char) : Prop :=
  countNewlines text < 3 ∨ text.length > 1000000 ∨
    (¬ ∃ n : Nat, n ≤ maxInt64 ∧ (splitNl 3 text).getD 1 [] = toDecimal n) ∨
    base64Ok32 ((splitNl 3 text).getD 2 []) = false

/-- A checkpoint text whose second line is the canonical decimal of 2^63,
one past the largest int64. -/
def overflowCheckpoint : List Char :=
  ("origin\n9223372036854775808\nAAAAAAAAAAAAAAAAAAAAAAAAAAAAAAAAAAAAAAAAAAA=\n").toList

/-- A well-formed checkpoint text with tree size 123. -/
def goodCheckpoint : List Char :=
  ("origin\n123\nAAAAAAAAAAAAAAAAAAAAAAAAAAAAAAAAAAAAAAAAAAA=\n").toList

/-! ## Retry policy (staticctapi/retry.go) -/

/-- staticctapi.Retry: attempts cap and durations in nanoseconds (Go
time.Duration is an int64 nanosecond count). -/
structure Retry where
  MaxAttempts : Int
  MaxInterval : Int
  Timeout : Int
  deriving DecidableEq

/-- staticctapi.Retry.Validate (retry.go lines 28-46). -/
def Retry.Validate (r : Retry) : Option String :=
  if r.MaxAttempts < 1 then some "max attempts less than one"
  else if r.MaxInterval ≤ 0 then some "max interval less than or equal to zero"
  else if r.Timeout ≤ 0 then some "timeout less than or equal to zero"
  else if r.Timeout ≤ r.MaxInterval then some "timeout less than or equal to max interval"
  else none

/-- staticctapi.DefaultTileRetry: 5 attempts, 1 second max interval,
5 second overall timeout. -/
def DefaultTileRetry : Retry := ⟨5, 1000000000, 5000000000⟩

/-- The part of staticctapi.Log relevant to retry selection. -/
structure Log where
  TileRetry : Retry

/-- The retry policy GetTileEntriesWithBackoff actually consumes (log.go
lines 146-150): the configured policy when it validates, otherwise
DefaultTileRetry. -/
def effectiveTileRetry (l : Log) : Retry :=
  if l.TileRetry.Validate = none then l.TileRetry else DefaultTileRetry

/-! ## Tile entries (staticctapi/log.go, GetTileEntries) -/

/-- sunlight.LogEntry, restricted to the fields the repository reads. -/
structure LogEntry where
  Timestamp : Int
  IsPrecert : Bool
  Certificate : List Nat
  PreCertificate : List Nat
  deriving DecidableEq

/-- Placeholder entry for list indexing (GetTileEntries guarantees 256
entries, so the placeholder is never read on the Go side). -/
def defaultLogEntry : LogEntry := ⟨0, false, [], []⟩

/-- The entry-reading loop of GetTileEntries (log.go lines 128-138): read a
fixed number of leaf records, drop the remaining bytes. sunlight.ReadTileLeaf
is external to the repository and is passed as an oracle. -/
def readLeafLoop (readTileLeaf : List Nat → Option (LogEntry × List Nat)) :
    Nat → List Nat → Except String (List LogEntry)
  | 0, _ => .ok []
  | k + 1, tileData =>
    match readTileLeaf tileData with
    | none => .error "reading entry from tile"
    | some (entry, rest) =>
      match readLeafLoop readTileLeaf k rest with
      | .error e => .error e
      | .ok entries => .ok (entry :: entries)

/-- The parsing part of staticctapi.Log.GetTileEntries: 256 leaf records from
the (possibly decompressed) body. -/
def GetTileEntriesParse (readTileLeaf : List Nat → Option (LogEntry × List Nat))
    (tileData : List Nat) : Except String (List LogEntry) :=
  readLeafLoop readTileLeaf 256 tileData

/-- Claim-side record reader: the first n leaf records of a body together
with the bytes left over after them. -/
def readRecords (readTileLeaf : List Nat → Option (LogEntry × List Nat)) :
    Nat → List Nat → Option (List LogEntry × List Nat)
  | 0, tileData => some ([], tileData)
  | k + 1, tileData =>
    (readTileLeaf tileData).bind fun er =>
      (readRecords readTileLeaf k er.2).map fun p => (er.1 :: p.1, p.2)

/-! ## Time-to-tile binary search (staticctapi/log.go, GetTileIndexFromTime) -/

/-- The binary search loop of GetTileIndexFromTime (log.go lines 203-227).
Timestamps are milliseconds (time.UnixMilli is an order isomorphism onto
time values, so Before and After become < on Int). Fetching a tile is the
oracle fetch; Go integer division truncates, hence Int.tdiv. -/
def tileSearchLoop (fetch : Int → Except String (List LogEntry)) (t : Int) (s e : Int) :
    Except String Int :=
  if h : s ≤ e then
    match fetch ((s + e).tdiv 2) with
    | .error err => .error ("getting entries for tile: " ++ err)
    | .ok entries =>
      if t < (entries.getD 0 defaultLogEntry).Timestamp then
        tileSearchLoop fetch t s ((s + e).tdiv 2 - 1)
      else if (entries.getD 255 defaultLogEntry).Timestamp < t then
        tileSearchLoop fetch t ((s + e).tdiv 2 + 1) e
      else .ok ((s + e).tdiv 2)
  else .error "timestamp outside the time bounds of the log entries"
termination_by (e + 1 - s).toNat
decreasing_by
  all_goals
    have hb : s ≤ (s + e).tdiv 2 ∧ (s + e).tdiv 2 ≤ e := by
      rcases le_or_lt 0 (s + e) with hpos | hneg
      · rw [Int.tdiv_eq_ediv hpos (by omega)]
        omega
      · have h1 : s + e = -(-(s + e)) := by ring
        rw [h1, Int.neg_tdiv, Int.tdiv_eq_ediv (by omega) (by omega)]
        omega
  all_goals omega

/-- staticctapi.Log.GetTileIndexFromTime (log.go lines 198-228). -/
def GetTileIndexFromTime (fetch : Int → Except String (List LogEntry)) (t : Int)
    (startTile endTile : Int) : Except String Int :=
  if startTile < 0 then .error "negative startTile"
  else tileSearchLoop fetch t startTile endTile

/-- staticctapi.Log.GetBoundingTilesFromTimes (log.go lines 232-254).
GetLastFullTileIndex performs network traffic, so its outcome is passed in
as lastTileResult. -/
def GetBoundingTilesFromTimes (fetch : Int → Except String (List LogEntry))
    (lastTileResult : Except String Int) (startTime endTime : Int) :
    Except String (Int × Int) :=
  if ¬ startTime < endTime then .error "start time is not before end time"
  else
    match lastTileResult with
    | .error e => .error ("getting index of current final tile: " ++ e)
    | .ok lastTile =>
      match GetTileIndexFromTime fetch startTime 0 lastTile with
      | .error e => .error ("getting index of start tile: " ++ e)
      | .ok startIndex =>
        match GetTileIndexFromTime fetch endTime startIndex lastTile with
        | .error e => .error ("getting index of end tile: " ++ e)
        | .ok endIndex => .ok (startIndex, endIndex)

/-- A concrete 256-entry tile used to exercise the binary search: first
entry at timestamp 0, the remaining 255 at timestamp 10. -/
def witnessEntries : List LogEntry :=
  ⟨0, false, [], []⟩ :: List.replicate 255 ⟨10, false, [], []⟩

/-- A fetch oracle returning witnessEntries for every tile index. -/
def witnessFetch : Int → Except String (List LogEntry) :=
  fun _ => .ok witnessEntries

/-! ## Tiled-log data source (staticctapi/log.go, DataSource.Source) -/

/-- The per-entry emission step of a tile worker (log.go lines 338-348). -/
def emitEntries (includePrecerts includeCerts : Bool) (entries : List LogEntry) :
    List (List Nat) :=
  entries.filterMap fun entry =>
    if entry.IsPrecert then
      if includePrecerts then some entry.PreCertificate else none
    else
      if includeCerts then some entry.Certificate else none

/-- The worker loop of DataSource.Source, sequentialized over the tile index
range: a failed fetch is logged to the diagnostic stream and the tile is
skipped; a successful fetch emits entry bytes subject to the inclusion
flags. Returns the emitted byte strings and the diagnostic lines. -/
def fetchTileLoop (fetchWithBackoff : Int → Except String (List LogEntry))
    (includePrecerts includeCerts : Bool) :
    List Int → List (List Nat) × List String
  | [] => ([], [])
  | i :: rest =>
    let r := fetchTileLoop fetchWithBackoff includePrecerts includeCerts rest
    match fetchWithBackoff i with
    | .error e => (r.1, ("getting entries for tile: " ++ e) :: r.2)
    | .ok entries => (emitEntries includePrecerts includeCerts entries ++ r.1, r.2)

/-- The inclusive tile index range walked by the enumerator goroutine. -/
def tileRange (s e : Int) : List Int :=
  (List.range (e + 1 - s).toNat).map (fun k => s + k)

/-- staticctapi.DataSource.Source (log.go lines 296-355), sequentialized:
validation, bounding search, then the worker loop over every tile in range,
then return nil. The final value is .ok whenever the bounds were computed,
whatever the per-tile fetches did, because per-tile failures are only
logged and skipped. -/
def SourceRun (logPresent : Bool) (includePrecerts includeCerts : Bool)
    (bounds : Except String (Int × Int))
    (fetchWithBackoff : Int → Except String (List LogEntry)) :
    Except String (List (List Nat) × List String) :=
  if ¬ logPresent then .error "nil log"
  else if ¬ (includeCerts ∨ includePrecerts) then
    .error "neither precertficates nor certificates are selected"
  else
    match bounds with
    | .error e => .error ("determining search bounds: " ++ e)
    | .ok se => .ok (fetchTileLoop fetchWithBackoff includePrecerts includeCerts
        (tileRange se.1 se.2))

end Staticctapi

namespace X509search

/-! ## Search engine consumer loop (search.go, Search.Execute) -/

/-- The view of crypto/x509 Certificate the claims need: the raw DER bytes.
Go ParseCertificate records the input bytes in the Raw field. -/
structure GoCert where
  Raw : List Nat
  deriving DecidableEq

/-- search.go ErrorBehavior. -/
inductive ErrorBehavior where
  | Cancel : ErrorBehavior
  | Continue : ErrorBehavior
  deriving DecidableEq

/-- The consumer loop of Search.Execute (search.go lines 144-180)
specialized to a Sha256MapCacher (part_000 lines 60-70): DER pre-filter,
parse, post-filter, then fused lookup-and-insert of the SHA-256 fingerprint
of the raw bytes; the callback fires only when the fingerprint was absent.
The cacher map is modelled by the list of inserted fingerprints; the second
component collects the MatchCallback arguments in order. -/
def consumeAll (derFilter : List Nat → Bool) (parse : List Nat → Option GoCert)
    (filter : GoCert → Bool) (sha256 : List Nat → List Nat) :
    List (List Nat) → List (List Nat) → List (List Nat) × List GoCert
  | seen, [] => (seen, [])
  | seen, certBytes :: rest =>
    if ¬ derFilter certBytes then consumeAll derFilter parse filter sha256 seen rest
    else
      match parse certBytes with
      | none => consumeAll derFilter parse filter sha256 seen rest
      | some cert =>
        if ¬ filter cert then consumeAll derFilter parse filter sha256 seen rest
        else
          if sha256 cert.Raw ∈ seen then
            consumeAll derFilter parse filter sha256 (sha256 cert.Raw :: seen) rest
          else
            let r := consumeAll derFilter parse filter sha256 (sha256 cert.Raw :: seen) rest
            (r.1, cert :: r.2)

/-- Whether an input byte string passes the DER filter, parses, and passes
the post-parse filter. -/
def acceptedBytes (derFilter : List Nat → Bool) (parse : List Nat → Option GoCert)
    (filter : GoCert → Bool) (b : List Nat) : Bool :=
  derFilter b &&
    match parse b with
    | some c => filter c
    | none => false

/-- The certificates of the inputs that pass the DER filter, parse, and pass
the post-parse filter, in input order. -/
def acceptedCerts (derFilter : List Nat → Bool) (parse : List Nat → Option GoCert)
    (filter : GoCert → Bool) (l : List (List Nat)) : List GoCert :=
  l.filterMap fun b =>
    match parse b with
    | some c => if derFilter b && filter c then some c else none
    | none => none

/-- Keep the first element for every distinct key, drop every later element
whose key was already kept. -/
def dedupByKeyFirst {α β : Type} [DecidableEq β] (key : α → β) : List α → List α
  | [] => []
  | a :: l => a :: dedupByKeyFirst key (l.filter (fun x => decide (key x ≠ key a)))
termination_by l => l.length
decreasing_by
  have := List.length_filter_le (fun x => decide (key x ≠ key a)) l
  simp only [List.length_cons]
  omega

/-- Byte-level acceptance fixture: reject the raw bytes [9]. -/
def wDerFilter : List Nat → Bool := fun b => decide (b ≠ [9])

/-- Parse fixture: [7] fails to parse, everything else parses to a
certificate carrying the input bytes. -/
def wParse : List Nat → Option GoCert := fun b => if b = [7] then none else some ⟨b⟩

/-- Post-parse filter fixture: reject the certificate with raw bytes [8]. -/
def wFilter : GoCert → Bool := fun c => decide (c.Raw ≠ [8])

/-- Input stream fixture with one duplicate of [1]. -/
def wInput : List (List Nat) := [[1], [9], [7], [8], [2], [1]]

/-- The diagnostic output of the per-source goroutine body (search.go lines
131-135) for a source that returned err: the error is printed only when the
behavior is Cancel. -/
def sourceErrLog (behavior : ErrorBehavior) (err : Option String) : List String :=
  match err, behavior with
  | some e, .Cancel => ["data source encountered error: " ++ e]
  | _, _ => []

/-- The cancel-with-cause request of the per-source goroutine body: cancel
is called with the error as cause only when the behavior is Cancel. -/
def sourceCancelCause (behavior : ErrorBehavior) (err : Option String) : Option String :=
  match err, behavior with
  | some e, .Cancel => some e
  | _, _ => none

/-- Search.Execute after validation, sequentialized. Each source is given by
the byte strings it sent before returning and its return error. When no
source requests cancellation the consumer drains the closed channel and
Execute returns nil (none) with the full list of callback invocations; when
cancellation fires, Execute returns the cause (the certificates processed
before the consumer observes cancellation are scheduling-dependent and not
modelled; the claims settled here use only the no-cancellation branch).
Components: returned error, callback invocations, diagnostic lines. -/
def executeModel (behavior : ErrorBehavior) (derFilter : List Nat → Bool)
    (parse : List Nat → Option GoCert) (filter : GoCert → Bool)
    (sha256 : List Nat → List Nat)
    (sources : List (List (List Nat) × Option String)) :
    Option String × List GoCert × List String :=
  let logs := (sources.map (fun src => sourceErrLog behavior src.2)).flatten
  let cause := (sources.filterMap (fun src => sourceCancelCause behavior src.2)).head?
  match cause with
  | some e => (some e, [], logs)
  | none =>
    (none, (consumeAll derFilter parse filter sha256 [] (sources.map Prod.fst).flatten).2, logs)

end X509search

/-! ## Theorems: decimal round-trip machinery -/

theorem digitVal_digitChar {d : Nat} (h : d < 10) : digitVal (digitChar d) = some d := by
  interval_cases d <;> decide

theorem toNat_digitChar {d : Nat} (h : d < 10) :
    48 ≤ (digitChar d).toNat ∧ (digitChar d).toNat ≤ 57 := by
  interval_cases d <;> decide

theorem toDecimalAux_head {fuel n : Nat} (h : n < fuel) :
    ∃ c rest, toDecimalAux fuel n = c :: rest ∧ 48 ≤ c.toNat ∧ c.toNat ≤ 57 := by
  induction fuel generalizing n with
  | zero => omega
  | succ fuel ih =>
    by_cases hn : n < 10
    · exact ⟨digitChar n, [], by simp [toDecimalAux, hn], toNat_digitChar hn⟩
    · have hdiv : n / 10 < fuel := by
        have := Nat.div_lt_self (by omega : 0 < n) (by omega : 1 < 10)
        omega
      obtain ⟨c, rest, heq, hc⟩ := ih hdiv
      exact ⟨c, rest ++ [digitChar (n % 10)], by simp [toDecimalAux, hn, heq], hc⟩

theorem parseAux_toDecimalAux {fuel n : Nat} (h : n < fuel) :
    ∀ acc l, ∃ k, parseAux acc (toDecimalAux fuel n ++ l) = parseAux (acc * 10 ^ k + n) l := by
  induction fuel generalizing n with
  | zero => omega
  | succ fuel ih =>
    intro acc l
    by_cases hn : n < 10
    · refine ⟨1, ?_⟩
      simp [toDecimalAux, hn, parseAux, digitVal_digitChar hn]
    · have hdiv : n / 10 < fuel := by
        have := Nat.div_lt_self (by omega : 0 < n) (by omega : 1 < 10)
        omega
      obtain ⟨k, hk⟩ := ih hdiv acc ([digitChar (n % 10)] ++ l)
      refine ⟨k + 1, ?_⟩
      have hmod : n % 10 < 10 := Nat.mod_lt _ (by omega)
      calc parseAux acc (toDecimalAux (fuel + 1) n ++ l)
          = parseAux acc (toDecimalAux fuel (n / 10) ++ ([digitChar (n % 10)] ++ l)) := by
            simp [toDecimalAux, hn]
        _ = parseAux (acc * 10 ^ k + n / 10) ([digitChar (n % 10)] ++ l) := hk
        _ = parseAux ((acc * 10 ^ k + n / 10) * 10 + n % 10) l := by
            simp [parseAux, digitVal_digitChar hmod]
        _ = parseAux (acc * 10 ^ (k + 1) + n) l := by
            have h10 : n / 10 * 10 + n % 10 = n := by omega
            have hexp : (acc * 10 ^ k + n / 10) * 10 + n % 10
                = acc * 10 ^ (k + 1) + (n / 10 * 10 + n % 10) := by ring
            rw [hexp, h10]

/-- Round-trip: parsing the decimal rendering of n recovers n. -/
theorem parseNatDigits_toDecimal (n : Nat) : parseNatDigits (toDecimal n) = some n := by
  obtain ⟨c, rest, heq, -⟩ := toDecimalAux_head (Nat.lt_succ_self n)
  obtain ⟨k, hk⟩ := parseAux_toDecimalAux (Nat.lt_succ_self n) 0 []
  simp only [toDecimal] at heq ⊢
  rw [heq]
  show parseNatDigits (c :: rest) = some n
  have hcons : parseNatDigits (c :: rest) = parseAux 0 (c :: rest) := rfl
  rw [hcons, ← heq]
  have hnil : toDecimalAux (n + 1) n ++ ([] : List Char) = toDecimalAux (n + 1) n := by simp
  rw [← hnil, hk]
  simp [parseAux]

theorem toDecimal_head (n : Nat) :
    ∃ c rest, toDecimal n = c :: rest ∧ 48 ≤ c.toNat ∧ c.toNat ≤ 57 :=
  toDecimalAux_head (Nat.lt_succ_self n)

/-! ## C8: retry validation -/

/-- C8: Retry.Validate returns an error if and only if MaxAttempts < 1,
MaxInterval ≤ 0, Timeout ≤ 0 or Timeout ≤ MaxInterval; a policy with none
of these defects is accepted. -/
theorem retry_validate_iff (r : Staticctapi.Retry) :
    (Staticctapi.Retry.Validate r).isSome = true ↔
      (r.MaxAttempts < 1 ∨ r.MaxInterval ≤ 0 ∨ r.Timeout ≤ 0 ∨ r.Timeout ≤ r.MaxInterval) := by
  unfold Staticctapi.Retry.Validate
  split_ifs <;> simp_all

theorem retry_validate_iff_witness :
    (Staticctapi.Retry.Validate ⟨0, 1, 2⟩).isSome = true :=
  (retry_validate_iff ⟨0, 1, 2⟩).mpr (Or.inl (by decide))

/-! ## C9: retry policy selection -/

/-- C9: GetTileEntriesWithBackoff consumes the configured TileRetry policy
exactly when it validates; an invalid policy, in particular the zero value,
falls back to DefaultTileRetry, which is 5 attempts, 1 second (10^9 ns) max
interval and 5 seconds (5 * 10^9 ns) overall timeout. -/
theorem effective_retry_selection (l : Staticctapi.Log) :
    (l.TileRetry.Validate = none → Staticctapi.effectiveTileRetry l = l.TileRetry) ∧
    (l.TileRetry.Validate ≠ none →
      Staticctapi.effectiveTileRetry l = Staticctapi.DefaultTileRetry) ∧
    Staticctapi.effectiveTileRetry ⟨⟨0, 0, 0⟩⟩ = Staticctapi.DefaultTileRetry ∧
    Staticctapi.DefaultTileRetry = ⟨5, 1000000000, 5000000000⟩ := by
  refine ⟨fun h => ?_, fun h => ?_, rfl, rfl⟩
  · simp [Staticctapi.effectiveTileRetry, h]
  · simp [Staticctapi.effectiveTileRetry, h]

theorem effective_retry_selection_witness :
    Staticctapi.effectiveTileRetry ⟨⟨3, 5, 10⟩⟩ = ⟨3, 5, 10⟩ ∧
    Staticctapi.effectiveTileRetry ⟨⟨0, 1, 2⟩⟩ = Staticctapi.DefaultTileRetry :=
  ⟨(effective_retry_selection ⟨⟨3, 5, 10⟩⟩).1 (by decide),
   (effective_retry_selection ⟨⟨0, 1, 2⟩⟩).2.1 (by decide)⟩

/-! ## C5: tile path round-trip -/

theorem format3_digits {m : Nat} (h : m < 1000) :
    Staticctapi.format3 m
      = [digitChar (m / 100), digitChar (m / 10 % 10), digitChar (m % 10)] := by
  simp [Staticctapi.format3, h]

theorem parseTilePathGo_final (acc : Nat) {m : Nat} (h : m < 1000) :
    Staticctapi.parseTilePathGo acc (Staticctapi.format3 m) = some (acc * 1000 + m) := by
  rw [format3_digits h]
  have h1 : m / 100 < 10 := by omega
  have h2 : m / 10 % 10 < 10 := by omega
  have h3 : m % 10 < 10 := by omega
  simp only [Staticctapi.parseTilePathGo, digitVal_digitChar h1, digitVal_digitChar h2,
    digitVal_digitChar h3]
  congr 1
  have hdd : m / 10 / 10 = m / 100 := by rw [Nat.div_div_eq_div_mul]
  omega

theorem parseTilePathGo_xseg (acc : Nat) {m : Nat} (h : m < 1000) (p : List Char) :
    Staticctapi.parseTilePathGo acc ('x' :: (Staticctapi.format3 m ++ '/' :: p))
      = Staticctapi.parseTilePathGo (acc * 1000 + m) p := by
  rw [format3_digits h]
  have h1 : m / 100 < 10 := by omega
  have h2 : m / 10 % 10 < 10 := by omega
  have h3 : m % 10 < 10 := by omega
  show Staticctapi.parseTilePathGo acc
      ('x' :: digitChar (m / 100) :: digitChar (m / 10 % 10) :: digitChar (m % 10) :: '/' :: p)
    = Staticctapi.parseTilePathGo (acc * 1000 + m) p
  simp only [Staticctapi.parseTilePathGo, digitVal_digitChar h1, digitVal_digitChar h2,
    digitVal_digitChar h3, if_pos (And.intro rfl rfl)]
  have hval : m / 100 * 100 + m / 10 % 10 * 10 + m % 10 = m := by
    have hdd : m / 10 / 10 = m / 100 := by rw [Nat.div_div_eq_div_mul]
    omega
  rw [hval]
  simp

theorem parseTilePathGo_tilePathLoop (r : Nat) :
    ∀ acc p, ∃ k, Staticctapi.parseTilePathGo acc (Staticctapi.tilePathLoop r p)
      = Staticctapi.parseTilePathGo (acc * 1000 ^ k + r) p := by
  induction r using Nat.strong_induction_on with
  | _ r ih =>
    intro acc p
    by_cases hr : r = 0
    · refine ⟨0, ?_⟩
      rw [Staticctapi.tilePathLoop]
      simp [hr]
    · have hlt : r / 1000 < r := Nat.div_lt_self (Nat.pos_of_ne_zero hr) (by omega)
      obtain ⟨k, hk⟩ :=
        ih (r / 1000) hlt acc ('x' :: (Staticctapi.format3 (r % 1000) ++ '/' :: p))
      refine ⟨k + 1, ?_⟩
      rw [Staticctapi.tilePathLoop, dif_neg hr, hk,
        parseTilePathGo_xseg _ (Nat.mod_lt _ (by omega)) p]
      have hval : (acc * 1000 ^ k + r / 1000) * 1000 + r % 1000
          = acc * 1000 ^ (k + 1) + r := by
        have hdm : r / 1000 * 1000 + r % 1000 = r := by omega
        calc (acc * 1000 ^ k + r / 1000) * 1000 + r % 1000
            = acc * 1000 ^ (k + 1) + (r / 1000 * 1000 + r % 1000) := by ring
          _ = acc * 1000 ^ (k + 1) + r := by rw [hdm]
      rw [hval]

/-- C5: for every non-negative tile index, the tile path consists of the
three least significant decimal digits as a zero-padded final segment,
preceded by one xDDD/ segment per higher base-1000 digit group, so decoding
the path recovers the index; in particular 0, 1000 and 1000000 map to the
paths the claim lists. -/
theorem tile_path_round_trip :
    (∀ i : Nat, Staticctapi.parseTilePath (Staticctapi.TilePathFromIndex i) = some i) ∧
    Staticctapi.TilePathFromIndex 0 = "000".toList ∧
    Staticctapi.TilePathFromIndex 1000 = "x001/000".toList ∧
    Staticctapi.TilePathFromIndex 1000000 = "x001/x000/000".toList := by
  have hloop0 : ∀ p, Staticctapi.tilePathLoop 0 p = p := by
    intro p
    rw [Staticctapi.tilePathLoop]
    simp
  refine ⟨?_, ?_, ?_, ?_⟩
  · intro i
    obtain ⟨k, hk⟩ :=
      parseTilePathGo_tilePathLoop (i / 1000) 0 (Staticctapi.format3 (i % 1000))
    unfold Staticctapi.parseTilePath Staticctapi.TilePathFromIndex
    rw [hk, parseTilePathGo_final _ (Nat.mod_lt _ (by omega))]
    congr 1
    have : 0 * 1000 ^ k = 0 := by ring
    rw [this]
    omega
  · show Staticctapi.tilePathLoop (0 / 1000) (Staticctapi.format3 (0 % 1000)) = _
    norm_num
    rw [hloop0]
    decide
  · show Staticctapi.tilePathLoop (1000 / 1000) (Staticctapi.format3 (1000 % 1000)) = _
    norm_num
    rw [Staticctapi.tilePathLoop, dif_neg (by omega : (1 : Nat) ≠ 0)]
    norm_num
    rw [hloop0]
    decide
  · show Staticctapi.tilePathLoop (1000000 / 1000) (Staticctapi.format3 (1000000 % 1000)) = _
    norm_num
    rw [Staticctapi.tilePathLoop, dif_neg (by omega : (1000 : Nat) ≠ 0)]
    norm_num
    rw [Staticctapi.tilePathLoop, dif_neg (by omega : (1 : Nat) ≠ 0)]
    norm_num
    rw [hloop0]
    decide


/-! ## C4: checkpoint parsing -/

theorem parseInt64_range {s : List Char} {v : Int} (hp : parseInt64 s = some v)
    (hv : 0 ≤ v) : v.toNat ≤ maxInt64 := by
  cases s with
  | nil => simp [parseInt64] at hp
  | cons c rest =>
    simp only [parseInt64] at hp
    split_ifs at hp with hplus hminus
    · cases hn : parseNatDigits rest with
      | none => rw [hn] at hp; simp at hp
      | some n =>
        rw [hn, Option.some_bind] at hp
        split_ifs at hp with hle
        cases hp
        simpa using hle
    · cases hn : parseNatDigits rest with
      | none => rw [hn] at hp; simp at hp
      | some n =>
        rw [hn, Option.some_bind] at hp
        split_ifs at hp with hle
        cases hp
        omega
    · cases hn : parseNatDigits (c :: rest) with
      | none => rw [hn] at hp; simp at hp
      | some n =>
        rw [hn, Option.some_bind] at hp
        split_ifs at hp with hle
        cases hp
        simpa using hle

theorem formatInt_natCast (n : Nat) : formatInt ((n : Nat) : Int) = toDecimal n := by
  have hnn : ¬ ((n : Int) < 0) := by omega
  simp [formatInt, hnn]

theorem parseInt64_toDecimal {n : Nat} (h : n ≤ maxInt64) :
    parseInt64 (toDecimal n) = some ((n : Nat) : Int) := by
  obtain ⟨c, rest, heq, hc1, hc2⟩ := toDecimal_head n
  have hplus : c ≠ '+' := by
    intro hcp
    rw [hcp] at hc1
    revert hc1
    decide
  have hminus : c ≠ '-' := by
    intro hcm
    rw [hcm] at hc1
    revert hc1
    decide
  have hparse : parseNatDigits (toDecimal n) = some n := parseNatDigits_toDecimal n
  rw [heq] at hparse ⊢
  simp only [parseInt64, if_neg hplus, if_neg hminus, hparse, Option.some_bind, if_pos h]

theorem goLine2Check_toDecimal {n : Nat} (h : n ≤ maxInt64) :
    Staticctapi.goLine2Check (toDecimal n) = some ((n : Nat) : Int) := by
  have hvnn : ¬ ((n : Int) < 0) := by omega
  simp only [Staticctapi.goLine2Check, parseInt64_toDecimal h, if_neg hvnn,
    formatInt_natCast]
  simp

theorem goLine2Check_some {s : List Char} {v : Int}
    (h : Staticctapi.goLine2Check s = some v) :
    ∃ n : Nat, n ≤ maxInt64 ∧ s = toDecimal n ∧ v = ((n : Nat) : Int) := by
  unfold Staticctapi.goLine2Check at h
  split at h
  · simp at h
  · rename_i w hp
    split_ifs at h with hneg hfmt
    injection h with hwv
    subst hwv
    refine ⟨w.toNat, parseInt64_range hp (by omega), ?_, by omega⟩
    rw [hfmt]
    unfold formatInt
    rw [if_neg hneg]

theorem goLine2Check_none_of_not_exists {s : List Char}
    (h : ¬ ∃ n : Nat, n ≤ maxInt64 ∧ s = toDecimal n) :
    Staticctapi.goLine2Check s = none := by
  cases hg : Staticctapi.goLine2Check s with
  | none => rfl
  | some v =>
    obtain ⟨n, hn, hs, -⟩ := goLine2Check_some hg
    exact absurd ⟨n, hn, hs⟩ h

/-- C4 (amended): TreeSizeFromCheckpoint rejects exactly the texts with
fewer than 3 newlines, more than 10^6 bytes, a second line that is not the
canonical decimal of a non-negative value fitting in an int64, or a third
line that does not base64-decode to exactly 32 bytes; every other text
yields the tree size parsed from line 2. -/
theorem checkpoint_rejection (text : List Char) :
    (Staticctapi.amendedRejectsCheckpoint text →
      ∃ msg, Staticctapi.TreeSizeFromCheckpoint text = .error msg) ∧
    (¬ Staticctapi.amendedRejectsCheckpoint text →
      ∃ n : Nat, n ≤ maxInt64 ∧ (Staticctapi.splitNl 3 text).getD 1 [] = toDecimal n ∧
        Staticctapi.TreeSizeFromCheckpoint text = .ok ((n : Nat) : Int)) := by
  by_cases hsz : Staticctapi.countNewlines text < 3 ∨ text.length > 1000000
  · refine ⟨fun _ => ?_, fun hnr => ?_⟩
    · refine ⟨"malformed checkpoint: incorrect size", ?_⟩
      unfold Staticctapi.TreeSizeFromCheckpoint
      rw [if_pos hsz]
    · have hrej : Staticctapi.amendedRejectsCheckpoint text :=
        hsz.elim Or.inl (fun hb => Or.inr (Or.inl hb))
      exact absurd hrej hnr
  · cases hg : Staticctapi.goLine2Check ((Staticctapi.splitNl 3 text).getD 1 []) with
    | none =>
      have hc : ¬ ∃ n : Nat, n ≤ maxInt64 ∧
          (Staticctapi.splitNl 3 text).getD 1 [] = toDecimal n := by
        rintro ⟨n, hn, heq⟩
        rw [heq, goLine2Check_toDecimal hn] at hg
        simp at hg
      refine ⟨fun _ => ?_, fun hnr => ?_⟩
      · refine ⟨"malformed checkpoint: invalid tree size", ?_⟩
        simp only [Staticctapi.TreeSizeFromCheckpoint, if_neg hsz, hg]
      · exact absurd (Or.inr (Or.inr (Or.inl hc))) hnr
    | some v =>
      obtain ⟨n, hn, hline, hvn⟩ := goLine2Check_some hg
      cases hb : Staticctapi.base64Ok32 ((Staticctapi.splitNl 3 text).getD 2 []) with
      | false =>
        have herr : ∃ msg, Staticctapi.TreeSizeFromCheckpoint text = .error msg := by
          unfold Staticctapi.base64Ok32 at hb
          cases hd : Staticctapi.base64Decode ((Staticctapi.splitNl 3 text).getD 2 []) with
          | none =>
            refine ⟨"malformed checkpoint: invalid root hash", ?_⟩
            simp only [Staticctapi.TreeSizeFromCheckpoint, if_neg hsz, hg, hd]
          | some hsh =>
            rw [hd] at hb
            simp only [beq_eq_false_iff_ne, ne_eq] at hb
            refine ⟨"malformed checkpoint: invalid root hash", ?_⟩
            simp only [Staticctapi.TreeSizeFromCheckpoint, if_neg hsz, hg, hd]
            rw [if_pos hb]
        refine ⟨fun _ => herr, fun hnr => ?_⟩
        exact absurd (Or.inr (Or.inr (Or.inr hb))) hnr
      | true =>
        have hok : Staticctapi.TreeSizeFromCheckpoint text = .ok ((n : Nat) : Int) := by
          unfold Staticctapi.base64Ok32 at hb
          cases hd : Staticctapi.base64Decode ((Staticctapi.splitNl 3 text).getD 2 []) with
          | none => rw [hd] at hb; simp at hb
          | some hsh =>
            rw [hd] at hb
            simp only [beq_iff_eq] at hb
            simp only [Staticctapi.TreeSizeFromCheckpoint, if_neg hsz, hg, hd]
            rw [if_neg (by omega : ¬ hsh.length ≠ 32), hvn]
        have hnrej : ¬ Staticctapi.amendedRejectsCheckpoint text := by
          intro hrej
          simp only [Staticctapi.amendedRejectsCheckpoint] at hrej
          rcases hrej with h1 | h2 | h3 | h4
          · exact hsz (Or.inl h1)
          · exact hsz (Or.inr h2)
          · exact h3 ⟨n, hn, hline⟩
          · rw [hb] at h4; cases h4
        exact ⟨fun hrej => absurd hrej hnrej, fun _ => ⟨n, hn, hline, hok⟩⟩

/-- C4 counterexample: the code rejects a checkpoint whose second line is
the canonical decimal 9223372036854775808 = 2^63, although that text lies
outside the rejection set described by the claim (it has three newlines, is
well under 1 MiB, its second line is a canonical non-negative decimal with
no leading zero, sign or other characters, and its third line decodes to 32
bytes). -/
theorem checkpoint_claim_counterexample :
    Staticctapi.TreeSizeFromCheckpoint Staticctapi.overflowCheckpoint
      = .error "malformed checkpoint: invalid tree size" ∧
    ¬ Staticctapi.claimRejectsCheckpoint Staticctapi.overflowCheckpoint := by
  constructor
  · rfl
  · simp only [Staticctapi.claimRejectsCheckpoint]
    decide

theorem checkpoint_rejection_witness :
    (∃ n : Nat, n ≤ maxInt64 ∧
        (Staticctapi.splitNl 3 Staticctapi.goodCheckpoint).getD 1 [] = toDecimal n ∧
        Staticctapi.TreeSizeFromCheckpoint Staticctapi.goodCheckpoint
          = .ok ((n : Nat) : Int)) ∧
    (∃ msg, Staticctapi.TreeSizeFromCheckpoint Staticctapi.overflowCheckpoint
        = .error msg) := by
  constructor
  · refine (checkpoint_rejection Staticctapi.goodCheckpoint).2 ?_
    simp only [Staticctapi.amendedRejectsCheckpoint]
    push_neg
    refine ⟨by decide, by decide, ⟨123, by decide, by decide⟩, by decide⟩
  · refine (checkpoint_rejection Staticctapi.overflowCheckpoint).1 ?_
    simp only [Staticctapi.amendedRejectsCheckpoint]
    refine Or.inr (Or.inr (Or.inl ?_))
    rintro ⟨n, hn, heq⟩
    have h1 := parseNatDigits_toDecimal n
    rw [← heq] at h1
    have h2 : parseNatDigits
        ((Staticctapi.splitNl 3 Staticctapi.overflowCheckpoint).getD 1 [])
        = some 9223372036854775808 := by decide
    rw [h1] at h2
    injection h2 with h3
    rw [h3] at hn
    revert hn
    decide

/-! ## C10: tile entry parsing ignores trailing bytes -/

theorem readLeafLoop_iff (readTileLeaf : List Nat → Option (Staticctapi.LogEntry × List Nat)) :
    ∀ (k : Nat) (tileData : List Nat) (es : List Staticctapi.LogEntry),
      Staticctapi.readLeafLoop readTileLeaf k tileData = .ok es ↔
        ∃ rest, Staticctapi.readRecords readTileLeaf k tileData = some (es, rest) := by
  intro k
  induction k with
  | zero =>
    intro tileData es
    constructor
    · intro h
      injection h with h
      exact ⟨tileData, by rw [← h]; rfl⟩
    · rintro ⟨rest, hr⟩
      simp only [Staticctapi.readRecords] at hr
      injection hr with hr
      rw [Staticctapi.readLeafLoop]
      rw [show es = ([] : List Staticctapi.LogEntry) from (Prod.mk.injEq _ _ _ _ ▸ hr).1.symm]
  | succ k ih =>
    intro tileData es
    cases hrl : readTileLeaf tileData with
    | none =>
      simp only [Staticctapi.readLeafLoop, Staticctapi.readRecords, hrl, Option.none_bind]
      constructor
      · intro h; cases h
      · rintro ⟨rest, hr⟩; cases hr
    | some er =>
      obtain ⟨entry, rest1⟩ := er
      simp only [Staticctapi.readLeafLoop, Staticctapi.readRecords, hrl, Option.some_bind]
      constructor
      · intro h
        cases hk : Staticctapi.readLeafLoop readTileLeaf k rest1 with
        | error e => rw [hk] at h; cases h
        | ok es' =>
          rw [hk] at h
          injection h with h
          obtain ⟨rest, hrr⟩ := (ih rest1 es').mp hk
          exact ⟨rest, by rw [hrr, ← h]; rfl⟩
      · rintro ⟨rest, hr⟩
        cases hrr : Staticctapi.readRecords readTileLeaf k rest1 with
        | none => rw [hrr] at hr; cases hr
        | some p =>
          rw [hrr] at hr
          simp only [Option.map_some'] at hr
          injection hr with hr
          have hes : es = entry :: p.1 := by
            have := congrArg Prod.fst hr
            exact this.symm
          have hloop : Staticctapi.readLeafLoop readTileLeaf k rest1 = .ok p.1 :=
            (ih rest1 p.1).mpr ⟨p.2, hrr⟩
          rw [hloop, hes]

/-- C10: GetTileEntries succeeds exactly when 256 leaf records can be read
from the body, returns those 256 records, and ignores whatever bytes remain
after the 256th record: the leftover rest is unconstrained, so extra
trailing data is not an error. -/
theorem tile_entries_trailing_ignored
    (readTileLeaf : List Nat → Option (Staticctapi.LogEntry × List Nat))
    (tileData : List Nat) (es : List Staticctapi.LogEntry) :
    Staticctapi.GetTileEntriesParse readTileLeaf tileData = .ok es ↔
      ∃ rest, Staticctapi.readRecords readTileLeaf 256 tileData = some (es, rest) :=
  readLeafLoop_iff readTileLeaf 256 tileData es

set_option maxRecDepth 4000 in
theorem tile_entries_trailing_ignored_witness :
    Staticctapi.GetTileEntriesParse
        (fun d => match d with
          | [] => none
          | _ :: xs => some (Staticctapi.defaultLogEntry, xs))
        (List.replicate 257 0)
      = .ok (List.replicate 256 Staticctapi.defaultLogEntry) :=
  (tile_entries_trailing_ignored _ _ _).mpr ⟨[0], by rfl⟩

/-! ## C6, C7: time-to-tile binary search -/

theorem tdiv2_bounds {s e : Int} (h : s ≤ e) :
    s ≤ (s + e).tdiv 2 ∧ (s + e).tdiv 2 ≤ e := by
  rcases le_or_lt 0 (s + e) with hpos | hneg
  · rw [Int.tdiv_eq_ediv hpos (by omega)]
    omega
  · have h1 : s + e = -(-(s + e)) := by ring
    rw [h1, Int.neg_tdiv, Int.tdiv_eq_ediv (by omega) (by omega)]
    omega

theorem tileSearchLoop_ok_bounds (fetch : Int → Except String (List Staticctapi.LogEntry))
    (t : Int) :
    ∀ (fuel : Nat) (s e idx : Int), (e + 1 - s).toNat ≤ fuel →
      Staticctapi.tileSearchLoop fetch t s e = .ok idx → s ≤ idx ∧ idx ≤ e := by
  intro fuel
  induction fuel with
  | zero =>
    intro s e idx hm h
    rw [Staticctapi.tileSearchLoop, dif_neg (by omega : ¬ s ≤ e)] at h
    exact absurd h (by simp)
  | succ fuel ih =>
    intro s e idx hm h
    by_cases hse : s ≤ e
    · rw [Staticctapi.tileSearchLoop, dif_pos hse] at h
      have hb := tdiv2_bounds hse
      split at h
      · exact absurd h (by simp)
      · split_ifs at h with h1 h2
        · have := ih s ((s + e).tdiv 2 - 1) idx (by omega) h
          omega
        · have := ih ((s + e).tdiv 2 + 1) e idx (by omega) h
          omega
        · injection h with hh
          omega
    · rw [Staticctapi.tileSearchLoop, dif_neg hse] at h
      exact absurd h (by simp)

theorem GetTileIndexFromTime_ok_bounds
    {fetch : Int → Except String (List Staticctapi.LogEntry)} {t s e idx : Int}
    (h : Staticctapi.GetTileIndexFromTime fetch t s e = .ok idx) :
    0 ≤ s ∧ s ≤ idx ∧ idx ≤ e := by
  unfold Staticctapi.GetTileIndexFromTime at h
  split_ifs at h with hneg
  exact ⟨by omega, tileSearchLoop_ok_bounds fetch t _ s e idx le_rfl h⟩

/-- C6: whenever GetBoundingTilesFromTimes returns without error, the
returned pair satisfies 0 ≤ startTile ≤ endTile: the end search is bounded
below by the start tile already found, so the range is monotonically
non-decreasing. -/
theorem bounding_tiles_monotone
    (fetch : Int → Except String (List Staticctapi.LogEntry))
    (lastTileResult : Except String Int) (startTime endTime s e : Int)
    (h : Staticctapi.GetBoundingTilesFromTimes fetch lastTileResult startTime endTime
      = .ok (s, e)) :
    0 ≤ s ∧ s ≤ e := by
  unfold Staticctapi.GetBoundingTilesFromTimes at h
  split_ifs at h with hlt
  split at h
  · exact absurd h (by simp)
  · split at h
    · exact absurd h (by simp)
    · split at h
      · exact absurd h (by simp)
      · rename_i x1 lastTile x2 si h1 x3 ei h2
        injection h with hpair
        have hb1 := GetTileIndexFromTime_ok_bounds h1
        have hb2 := GetTileIndexFromTime_ok_bounds h2
        have hs : si = s := congrArg Prod.fst hpair
        have he : ei = e := congrArg Prod.snd hpair
        omega

theorem tileSearchLoop_single {fetch : Int → Except String (List Staticctapi.LogEntry)}
    {t : Int} {l : List Staticctapi.LogEntry}
    (hf : fetch 0 = .ok l)
    (h1 : ¬ t < (l.getD 0 Staticctapi.defaultLogEntry).Timestamp)
    (h2 : ¬ (l.getD 255 Staticctapi.defaultLogEntry).Timestamp < t) :
    Staticctapi.tileSearchLoop fetch t 0 0 = .ok 0 := by
  rw [Staticctapi.tileSearchLoop, dif_pos (le_refl (0 : Int))]
  have hp : ((0 : Int) + 0).tdiv 2 = 0 := rfl
  rw [hp, hf]
  simp only [if_neg h1, if_neg h2]

set_option maxRecDepth 2000 in
theorem bounding_tiles_monotone_witness : (0 : Int) ≤ 0 ∧ (0 : Int) ≤ 0 := by
  have hsearch1 : Staticctapi.GetTileIndexFromTime Staticctapi.witnessFetch 3 0 0 = .ok 0 := by
    unfold Staticctapi.GetTileIndexFromTime
    rw [if_neg (by omega : ¬ (0 : Int) < 0)]
    exact tileSearchLoop_single rfl (by decide) (by decide)
  have hsearch2 : Staticctapi.GetTileIndexFromTime Staticctapi.witnessFetch 7 0 0 = .ok 0 := by
    unfold Staticctapi.GetTileIndexFromTime
    rw [if_neg (by omega : ¬ (0 : Int) < 0)]
    exact tileSearchLoop_single rfl (by decide) (by decide)
  have hrun : Staticctapi.GetBoundingTilesFromTimes Staticctapi.witnessFetch (.ok 0) 3 7
      = .ok (0, 0) := by
    unfold Staticctapi.GetBoundingTilesFromTimes
    rw [if_neg (not_not_intro (by omega : (3 : Int) < 7))]
    simp only [hsearch1, hsearch2]
  exact bounding_tiles_monotone Staticctapi.witnessFetch (.ok 0) 3 7 0 0 hrun

/-- C7: GetTileIndexFromTime returns an error when startTile is negative;
otherwise it binary-searches: it fetches the pivot tile at the midpoint of
the current interval, recurses on the left half when t is strictly before
the pivot tile's first entry timestamp, recurses on the right half when t
is strictly after its last entry timestamp, returns the pivot index
otherwise, and returns an error when the interval is empty. -/
theorem tile_index_search_characterization
    (fetch : Int → Except String (List Staticctapi.LogEntry)) (t : Int) (s e : Int) :
    (s < 0 → Staticctapi.GetTileIndexFromTime fetch t s e = .error "negative startTile") ∧
    (0 ≤ s → e < s → Staticctapi.GetTileIndexFromTime fetch t s e
      = .error "timestamp outside the time bounds of the log entries") ∧
    (0 ≤ s → s ≤ e → ∀ entries, fetch ((s + e).tdiv 2) = .ok entries →
      ((t < (entries.getD 0 Staticctapi.defaultLogEntry).Timestamp →
        Staticctapi.GetTileIndexFromTime fetch t s e
          = Staticctapi.GetTileIndexFromTime fetch t s ((s + e).tdiv 2 - 1)) ∧
      (¬ t < (entries.getD 0 Staticctapi.defaultLogEntry).Timestamp →
        (entries.getD 255 Staticctapi.defaultLogEntry).Timestamp < t →
        Staticctapi.GetTileIndexFromTime fetch t s e
          = Staticctapi.GetTileIndexFromTime fetch t ((s + e).tdiv 2 + 1) e) ∧
      (¬ t < (entries.getD 0 Staticctapi.defaultLogEntry).Timestamp →
        ¬ (entries.getD 255 Staticctapi.defaultLogEntry).Timestamp < t →
        Staticctapi.GetTileIndexFromTime fetch t s e = .ok ((s + e).tdiv 2)))) := by
  refine ⟨fun hneg => ?_, fun hpos hempty => ?_,
    fun hpos hse entries hf => ⟨fun h1 => ?_, fun h1 h2 => ?_, fun h1 h2 => ?_⟩⟩
  · unfold Staticctapi.GetTileIndexFromTime
    rw [if_pos hneg]
  · unfold Staticctapi.GetTileIndexFromTime
    rw [if_neg (by omega : ¬ s < 0), Staticctapi.tileSearchLoop,
      dif_neg (by omega : ¬ s ≤ e)]
  · unfold Staticctapi.GetTileIndexFromTime
    rw [if_neg (by omega : ¬ s < 0), if_neg (by omega : ¬ s < 0)]
    rw [Staticctapi.tileSearchLoop, dif_pos hse, hf]
    simp only [if_pos h1]
  · unfold Staticctapi.GetTileIndexFromTime
    rw [if_neg (by omega : ¬ s < 0)]
    have hb := tdiv2_bounds hse
    rw [if_neg (by omega : ¬ (s + e).tdiv 2 + 1 < 0)]
    rw [Staticctapi.tileSearchLoop, dif_pos hse, hf]
    simp only [if_neg h1, if_pos h2]
  · unfold Staticctapi.GetTileIndexFromTime
    rw [if_neg (by omega : ¬ s < 0)]
    rw [Staticctapi.tileSearchLoop, dif_pos hse, hf]
    simp only [if_neg h1, if_neg h2]

set_option maxRecDepth 2000 in
theorem tile_index_search_characterization_witness :
    Staticctapi.GetTileIndexFromTime Staticctapi.witnessFetch 5 (-1) 0
        = .error "negative startTile" ∧
    Staticctapi.GetTileIndexFromTime Staticctapi.witnessFetch 5 1 0
        = .error "timestamp outside the time bounds of the log entries" ∧
    Staticctapi.GetTileIndexFromTime Staticctapi.witnessFetch (-5) 0 0
        = Staticctapi.GetTileIndexFromTime Staticctapi.witnessFetch (-5) 0
            (((0 : Int) + 0).tdiv 2 - 1) ∧
    Staticctapi.GetTileIndexFromTime Staticctapi.witnessFetch 20 0 0
        = Staticctapi.GetTileIndexFromTime Staticctapi.witnessFetch 20
            (((0 : Int) + 0).tdiv 2 + 1) 0 ∧
    Staticctapi.GetTileIndexFromTime Staticctapi.witnessFetch 5 0 0
        = .ok (((0 : Int) + 0).tdiv 2) :=
  ⟨(tile_index_search_characterization _ 5 (-1) 0).1 (by omega),
   (tile_index_search_characterization _ 5 1 0).2.1 (by omega) (by omega),
   ((tile_index_search_characterization _ (-5) 0 0).2.2 (by omega) (by omega)
      Staticctapi.witnessEntries rfl).1 (by decide),
   ((tile_index_search_characterization _ 20 0 0).2.2 (by omega) (by omega)
      Staticctapi.witnessEntries rfl).2.1 (by decide) (by decide),
   ((tile_index_search_characterization _ 5 0 0).2.2 (by omega) (by omega)
      Staticctapi.witnessEntries rfl).2.2 (by decide) (by decide)⟩

/-! ## C1: at-most-once delivery with the SHA-256 map cacher -/

theorem filter_sha_notMem_cons (sha256 : List Nat → List Nat) (k : List Nat)
    (seen : List (List Nat)) (l : List X509search.GoCert) :
    l.filter (fun x => decide (¬ sha256 x.Raw ∈ k :: seen))
      = (l.filter (fun x => decide (¬ sha256 x.Raw ∈ seen))).filter
          (fun x => decide (sha256 x.Raw ≠ k)) := by
  rw [List.filter_filter]
  apply List.filter_congr
  intro x _
  by_cases h1 : sha256 x.Raw = k <;> by_cases h2 : sha256 x.Raw ∈ seen <;>
    simp [List.mem_cons, h1, h2]

theorem filter_sha_notMem_cons_of_mem (sha256 : List Nat → List Nat) {k : List Nat}
    {seen : List (List Nat)} (hk : k ∈ seen) (l : List X509search.GoCert) :
    l.filter (fun x => decide (¬ sha256 x.Raw ∈ k :: seen))
      = l.filter (fun x => decide (¬ sha256 x.Raw ∈ seen)) := by
  apply List.filter_congr
  intro x _
  by_cases h1 : sha256 x.Raw = k <;> simp [List.mem_cons, h1, hk]

theorem dedupByKeyFirst_cons {α β : Type} [DecidableEq β] (key : α → β) (a : α)
    (l : List α) :
    X509search.dedupByKeyFirst key (a :: l)
      = a :: X509search.dedupByKeyFirst key
          (l.filter (fun x => decide (key x ≠ key a))) := by
  rw [X509search.dedupByKeyFirst]

theorem consumeAll_spec (derFilter : List Nat → Bool)
    (parse : List Nat → Option X509search.GoCert) (filter : X509search.GoCert → Bool)
    (sha256 : List Nat → List Nat) :
    ∀ (l : List (List Nat)) (seen : List (List Nat)),
      (X509search.consumeAll derFilter parse filter sha256 seen l).2
        = X509search.dedupByKeyFirst (fun c => sha256 c.Raw)
            ((X509search.acceptedCerts derFilter parse filter l).filter
              (fun c => decide (¬ sha256 c.Raw ∈ seen))) := by
  intro l
  induction l with
  | nil =>
    intro seen
    simp [X509search.consumeAll, X509search.acceptedCerts, X509search.dedupByKeyFirst]
  | cons b rest ih =>
    intro seen
    cases hp : parse b with
    | none =>
      have hacc : X509search.acceptedCerts derFilter parse filter (b :: rest)
          = X509search.acceptedCerts derFilter parse filter rest := by
        simp [X509search.acceptedCerts, List.filterMap_cons, hp]
      have hlhs : (X509search.consumeAll derFilter parse filter sha256 seen (b :: rest)).2
          = (X509search.consumeAll derFilter parse filter sha256 seen rest).2 := by
        by_cases hdf : derFilter b <;> simp [X509search.consumeAll, hp, hdf]
      rw [hacc, hlhs]
      exact ih seen
    | some c =>
      by_cases hdf : derFilter b
      case neg =>
        have hacc : X509search.acceptedCerts derFilter parse filter (b :: rest)
            = X509search.acceptedCerts derFilter parse filter rest := by
          simp [X509search.acceptedCerts, List.filterMap_cons, hp, hdf]
        have hlhs : (X509search.consumeAll derFilter parse filter sha256 seen (b :: rest)).2
            = (X509search.consumeAll derFilter parse filter sha256 seen rest).2 := by
          simp [X509search.consumeAll, hp, hdf]
        rw [hacc, hlhs]
        exact ih seen
      case pos =>
        by_cases hfc : filter c
        case neg =>
          have hacc : X509search.acceptedCerts derFilter parse filter (b :: rest)
              = X509search.acceptedCerts derFilter parse filter rest := by
            simp [X509search.acceptedCerts, List.filterMap_cons, hp, hfc]
          have hlhs : (X509search.consumeAll derFilter parse filter sha256 seen
              (b :: rest)).2
              = (X509search.consumeAll derFilter parse filter sha256 seen rest).2 := by
            simp [X509search.consumeAll, hp, hdf, hfc]
          rw [hacc, hlhs]
          exact ih seen
        case pos =>
          have hacc : X509search.acceptedCerts derFilter parse filter (b :: rest)
              = c :: X509search.acceptedCerts derFilter parse filter rest := by
            simp [X509search.acceptedCerts, List.filterMap_cons, hp, hdf, hfc]
          rw [hacc]
          by_cases hmem : sha256 c.Raw ∈ seen
          · have hlhs : (X509search.consumeAll derFilter parse filter sha256 seen
                (b :: rest)).2
                = (X509search.consumeAll derFilter parse filter sha256
                    (sha256 c.Raw :: seen) rest).2 := by
              simp [X509search.consumeAll, hp, hdf, hfc, hmem]
            rw [hlhs, ih]
            rw [List.filter_cons_of_neg (by simp [hmem])]
            exact congrArg (X509search.dedupByKeyFirst (fun x : X509search.GoCert => sha256 x.Raw))
              (filter_sha_notMem_cons_of_mem sha256 hmem _)
          · have hlhs : (X509search.consumeAll derFilter parse filter sha256 seen
                (b :: rest)).2
                = c :: (X509search.consumeAll derFilter parse filter sha256
                    (sha256 c.Raw :: seen) rest).2 := by
              simp [X509search.consumeAll, hp, hdf, hfc, hmem]
            rw [hlhs, ih]
            rw [List.filter_cons_of_pos (by simp [hmem])]
            rw [dedupByKeyFirst_cons]
            exact congrArg (List.cons c)
              (congrArg (X509search.dedupByKeyFirst (fun x : X509search.GoCert => sha256 x.Raw))
                (filter_sha_notMem_cons sha256 (sha256 c.Raw) seen _))

theorem filter_comp_map {α β : Type} (f : α → β) (p : β → Bool) (l : List α) :
    (l.map f).filter p = (l.filter (fun x => p (f x))).map f := by
  induction l with
  | nil => rfl
  | cons a t ih => by_cases h : p (f a) <;> simp [h, ih]

theorem map_dedupByKeyFirst {α β γ : Type} [DecidableEq γ] (f : α → β) (key : β → γ) :
    ∀ (n : Nat) (l : List α), l.length ≤ n →
      (X509search.dedupByKeyFirst (fun a => key (f a)) l).map f
        = X509search.dedupByKeyFirst key (l.map f) := by
  intro n
  induction n with
  | zero =>
    intro l hl
    have hnil : l = [] := List.eq_nil_of_length_eq_zero (by omega)
    subst hnil
    simp [X509search.dedupByKeyFirst]
  | succ n ih =>
    intro l hl
    cases l with
    | nil => simp [X509search.dedupByKeyFirst]
    | cons a t =>
      rw [dedupByKeyFirst_cons (fun a => key (f a)) a t, List.map_cons, List.map_cons,
        dedupByKeyFirst_cons key (f a) (t.map f), filter_comp_map]
      congr 1
      have hlen : (t.filter (fun x => decide (key (f x) ≠ key (f a)))).length ≤ n := by
        have h1 := List.length_filter_le (fun x => decide (key (f x) ≠ key (f a))) t
        simp only [List.length_cons] at hl
        omega
      exact ih _ hlen

theorem acceptedCerts_map_raw (derFilter : List Nat → Bool)
    (parse : List Nat → Option X509search.GoCert) (filter : X509search.GoCert → Bool)
    (hparse : ∀ b c, parse b = some c → c.Raw = b) :
    ∀ l, (X509search.acceptedCerts derFilter parse filter l).map X509search.GoCert.Raw
      = l.filter (X509search.acceptedBytes derFilter parse filter) := by
  intro l
  induction l with
  | nil => rfl
  | cons b rest ih =>
    cases hp : parse b with
    | none =>
      have hab : X509search.acceptedBytes derFilter parse filter b = false := by
        simp [X509search.acceptedBytes, hp]
      simp [X509search.acceptedCerts, List.filterMap_cons, hp, List.filter_cons, hab,
        ← ih, X509search.acceptedCerts]
    | some c =>
      have hraw := hparse b c hp
      by_cases hd : derFilter b
      · by_cases hf : filter c
        · have hab : X509search.acceptedBytes derFilter parse filter b = true := by
            simp [X509search.acceptedBytes, hp, hd, hf]
          simp [X509search.acceptedCerts, List.filterMap_cons, hp, hd, hf,
            List.filter_cons, hab, ← ih, X509search.acceptedCerts, hraw]
        · have hab : X509search.acceptedBytes derFilter parse filter b = false := by
            simp [X509search.acceptedBytes, hp, hf]
          simp [X509search.acceptedCerts, List.filterMap_cons, hp, hf,
            List.filter_cons, hab, ← ih, X509search.acceptedCerts]
      · have hab : X509search.acceptedBytes derFilter parse filter b = false := by
          simp [X509search.acceptedBytes, hp, hd]
        simp [X509search.acceptedCerts, List.filterMap_cons, hp, hd,
          List.filter_cons, hab, ← ih, X509search.acceptedCerts]

/-- C1: with the SHA-256 map cacher, the consumer loop of Search.Execute
invokes MatchCallback exactly once per distinct fingerprint of the raw DER
bytes among the inputs that pass DERFilter, parse, and pass Filter: the raw
bytes handed to the callback are, in order, the first occurrence of every
distinct fingerprint among the accepted inputs, and a later occurrence of a
fingerprint is never delivered again. -/
theorem callback_once_per_fingerprint (derFilter : List Nat → Bool)
    (parse : List Nat → Option X509search.GoCert) (filter : X509search.GoCert → Bool)
    (sha256 : List Nat → List Nat)
    (hparse : ∀ b c, parse b = some c → c.Raw = b) (l : List (List Nat)) :
    ((X509search.consumeAll derFilter parse filter sha256 [] l).2).map X509search.GoCert.Raw
      = X509search.dedupByKeyFirst sha256
          (l.filter (X509search.acceptedBytes derFilter parse filter)) := by
  rw [consumeAll_spec]
  have hfil : (X509search.acceptedCerts derFilter parse filter l).filter
      (fun c => decide (¬ sha256 c.Raw ∈ ([] : List (List Nat))))
      = X509search.acceptedCerts derFilter parse filter l := by
    apply List.filter_eq_self.mpr
    intro a _
    simp
  rw [hfil, ← acceptedCerts_map_raw derFilter parse filter hparse l]
  exact map_dedupByKeyFirst X509search.GoCert.Raw sha256
    (X509search.acceptedCerts derFilter parse filter l).length _ le_rfl

theorem callback_once_per_fingerprint_witness :
    ((X509search.consumeAll X509search.wDerFilter X509search.wParse X509search.wFilter id []
        X509search.wInput).2).map X509search.GoCert.Raw
      = X509search.dedupByKeyFirst id
          (X509search.wInput.filter
            (X509search.acceptedBytes X509search.wDerFilter X509search.wParse
              X509search.wFilter)) ∧
    ((X509search.consumeAll X509search.wDerFilter X509search.wParse X509search.wFilter id []
        X509search.wInput).2).map X509search.GoCert.Raw = [[1], [2]] :=
  ⟨callback_once_per_fingerprint X509search.wDerFilter X509search.wParse X509search.wFilter
      id
      (fun b c h => by
        simp only [X509search.wParse] at h
        by_cases hb : b = [7]
        · rw [if_pos hb] at h
          exact Option.noConfusion h
        · rw [if_neg hb] at h
          injection h with h2
          rw [← h2])
      X509search.wInput,
   by decide⟩

/-! ## C2: the tiled-log source swallows cancellation -/

/-- C2 (code evaluation): once the bounding search has completed, a
cancelled context makes every remaining fetch fail with the context error,
but DataSource.Source logs each failure, skips the tile, and returns nil:
with a one-tile range and every fetch failing with "context canceled", the
sequentialized Source returns .ok (nil error) with no bytes emitted and one
diagnostic line, instead of returning the context cause. -/
theorem source_returns_nil_on_cancelled_fetch :
    Staticctapi.SourceRun true true true (.ok (0, 0)) (fun _ => .error "context canceled")
      = .ok ([], ["getting entries for tile: context canceled"]) := by rfl

/-! ## C3: continue-on-error behavior -/

/-- C3 counterexample: under ErrorBehaviorContinue a source error produces
no diagnostic output at all; the stderr line exists only in the Cancel
branch of the per-source goroutine (search.go lines 132-135). The run
completes with no error, the matching certificate is still delivered, and
the log stream is empty, while under Cancel the same error is printed. -/
theorem continue_error_not_logged :
    X509search.executeModel .Continue (fun _ => true) (fun b => some ⟨b⟩) (fun _ => true) id
        [([[1]], some "boom")]
      = (none, [⟨[1]⟩], []) ∧
    X509search.sourceErrLog .Continue (some "boom") = [] ∧
    X509search.sourceErrLog .Cancel (some "boom")
      = ["data source encountered error: boom"] :=
  ⟨rfl, rfl, rfl⟩

/-- C3 (amended): when DataSourceErrorBehavior is Continue, a non-nil
source error is silently discarded without being logged: the shared context
is never cancelled with a cause, every byte string delivered by any source
is still processed by the consumer, and Execute returns nil once the bytes
channel is closed and drained. -/
theorem continue_discards_errors (derFilter : List Nat → Bool)
    (parse : List Nat → Option X509search.GoCert) (filter : X509search.GoCert → Bool)
    (sha256 : List Nat → List Nat)
    (sources : List (List (List Nat) × Option String)) :
    X509search.executeModel .Continue derFilter parse filter sha256 sources
      = (none,
         (X509search.consumeAll derFilter parse filter sha256 []
           (sources.map Prod.fst).flatten).2,
         []) := by
  have hc : ∀ e : Option String, X509search.sourceCancelCause .Continue e = none := by
    intro e
    cases e <;> rfl
  have hl : ∀ e : Option String, X509search.sourceErrLog .Continue e = [] := by
    intro e
    cases e <;> rfl
  have hfind : ∀ ss : List (List (List Nat) × Option String),
      ss.findSome? (fun _ => (none : Option String)) = none := by
    intro ss
    induction ss with
    | nil => rfl
    | cons a t iht => simp [List.findSome?_cons, iht]
  unfold X509search.executeModel
  simp [hc, hl, List.filterMap, hfind]
